import Mathlib

/-!
Verification development for the generate-l10n localization pipeline.

The TypeScript sources are shallowly embedded as Lean definitions:

* `src/core/utils.ts`   — `mergeJsonStrings`, `atomicWrite`, `backupFiles`.
* `src/core/llm.ts`     — the response-parsing logic of `chooseLanguage`,
  `process` and `amendArb` (the network call itself is replaced by an
  oracle string supplied as input).
* `src/core/l10nProcessor.ts` — `L10nProcessor.process`, including the
  per-file extraction loop and the per-language translation loop.

JavaScript strings are modelled by Lean `String`, JS objects by
association lists in insertion order, and the file system by a function
from paths to optional contents.  `JSON.parse` / `JSON.stringify` are
modelled for the subset of JSON the pipeline manipulates: flat objects
whose values are primitives, with exact (≤ 15 digit) integer numerals;
inputs outside the subset (arrays, fractional or huge numbers, nested
objects, surrogate escapes) are treated as parse failures, which every
theorem states explicitly through its hypotheses.
-/

/-! Characters and strings.  JS `trim`, `split`, `replace`, `startsWith`
and `endsWith` are re-implemented on `List Char` with structural (fuel)
recursion so that all definitions reduce inside the kernel. -/

/-- Whitespace characters removed by the JS `trim` (ASCII subset). -/
def isJsWs (c : Char) : Bool :=
  c = ' ' || c = '\t' || c = '\n' || c = '\r' || c = '\x0b' || c = '\x0c'

/-- Model of JS `String.prototype.trim`. -/
def jsTrim (s : String) : String :=
  String.mk (((s.toList.dropWhile isJsWs).reverse.dropWhile isJsWs).reverse)

/-- Model of JS `String.prototype.startsWith`. -/
def strStartsWith (s pre : String) : Bool :=
  pre.toList.isPrefixOf s.toList

/-- Model of JS `String.prototype.endsWith`. -/
def strEndsWith (s suf : String) : Bool :=
  suf.toList.isSuffixOf s.toList

/-- Join a list of strings with a separator (model of `Array.join`). -/
def joinWith (sep : String) : List String → String
  | [] => ""
  | [x] => x
  | x :: xs => x ++ sep ++ joinWith sep xs

/-- Fuel-driven splitter behind `jsSplit`: splits `s` at every leftmost,
non-overlapping occurrence of the non-empty separator `c0 :: sepRest`.
The fuel only has to dominate the length of `s`. -/
def splitCLF (c0 : Char) (sepRest : List Char) : Nat → List Char → List (List Char)
  | _, [] => [[]]
  | 0, s => [s]
  | fuel + 1, c :: rest =>
    if (c0 :: sepRest).isPrefixOf (c :: rest) then
      [] :: splitCLF c0 sepRest fuel ((c :: rest).drop (sepRest.length + 1))
    else
      match splitCLF c0 sepRest fuel rest with
      | [] => [[c]]
      | g :: gs => (c :: g) :: gs

/-- Split a character list on a non-empty separator. -/
def splitCL (c0 : Char) (sepRest : List Char) (s : List Char) : List (List Char) :=
  splitCLF c0 sepRest s.length s

/-- Model of JS `String.prototype.split` with a non-empty literal
separator (every separator the program uses is a non-empty literal). -/
def jsSplit (sep s : String) : List String :=
  match sep.toList with
  | [] => [s]
  | c :: cs => (splitCL c cs s.toList).map String.mk

/-- Does the non-empty pattern occur as a contiguous substring? -/
def containsSub (pat : List Char) : List Char → Bool
  | [] => pat.isPrefixOf []
  | c :: rest => pat.isPrefixOf (c :: rest) || containsSub pat rest

/-- String-level substring occurrence test. -/
def containsSubstr (pat s : String) : Bool :=
  containsSub pat.toList s.toList

/-- Model of JS `String.prototype.replace` with a global literal pattern:
every occurrence of `pat` is replaced by `repl`. -/
def jsReplaceAll (pat repl s : String) : String :=
  joinWith repl (jsSplit pat s)

/-! JSON data model.  Resource bundles are flat (§3 of the design): a
JSON document is either a primitive or one object whose values are
primitives.  Objects are association lists in insertion order, mirroring
JS property order. -/

/-- Opening brace character. -/
def lbrace : Char := Char.ofNat 123

/-- Closing brace character. -/
def rbrace : Char := Char.ofNat 125

/-- JSON primitive values.  Numbers are exact integers; fractional or
overlong numerals are outside the modelled subset and fail to parse. -/
inductive JsPrim where
  | null : JsPrim
  | bool (b : Bool) : JsPrim
  | num (n : Int) : JsPrim
  | str (s : String) : JsPrim
deriving DecidableEq

/-- A JSON document of the flat subset: a primitive, or an object whose
values are primitives. -/
inductive JsValue where
  | prim (p : JsPrim) : JsValue
  | obj (fields : List (String × JsPrim)) : JsValue
deriving DecidableEq

/-- Value of a property: first (and in well-formed objects, only)
binding of the key. -/
def jsLookup : List (String × JsPrim) → String → Option JsPrim
  | [], _ => none
  | (k0, v) :: rest, k => if k0 = k then some v else jsLookup rest k

/-- JS property assignment `o[k] = v`: updates the first binding of `k`
in place, or appends a new binding.  Used to model both object spread
and the duplicate-key behaviour of `JSON.parse`. -/
def jsAssign : List (String × JsPrim) → String → JsPrim → List (String × JsPrim)
  | [], k, v => [(k, v)]
  | (k0, v0) :: rest, k, v =>
    if k0 = k then (k0, v) :: rest else (k0, v0) :: jsAssign rest k v

/-- Assign a list of properties left to right (later ones win). -/
def jsAssignList (base : List (String × JsPrim)) : List (String × JsPrim) → List (String × JsPrim)
  | [] => base
  | (k, v) :: rest => jsAssignList (jsAssign base k v) rest

/-- Property keys in order. -/
def keysOf (l : List (String × JsPrim)) : List String :=
  l.map Prod.fst

/-- Last binding of a key (what a left-to-right assignment fold keeps). -/
def lastLookup (l : List (String × JsPrim)) (k : String) : Option JsPrim :=
  jsLookup l.reverse k

/-- Enumerable own properties produced by spreading a parsed JSON value
into an object literal: objects contribute their fields, strings their
indexed characters, and null, booleans and numbers contribute nothing. -/
def spreadFields : JsValue → List (String × JsPrim)
  | JsValue.obj fs => fs
  | JsValue.prim (JsPrim.str s) =>
      (s.toList.enum).map (fun p => (toString p.1, JsPrim.str (String.mk [p.2])))
  | JsValue.prim _ => []

/-- Lowercase hexadecimal digit. -/
def hexDigitChar (n : Nat) : Char :=
  if n < 10 then Char.ofNat (48 + n) else Char.ofNat (87 + n)

/-- Escape one character the way `JSON.stringify` does. -/
def escapeChar (c : Char) : String :=
  if c = '"' then "\\\""
  else if c = '\\' then "\\\\"
  else if c = '\n' then "\\n"
  else if c = '\r' then "\\r"
  else if c = '\t' then "\\t"
  else if c = '\x08' then "\\b"
  else if c = '\x0c' then "\\f"
  else if c.toNat < 32 then
    "\\u00" ++ String.mk [hexDigitChar (c.toNat / 16), hexDigitChar (c.toNat % 16)]
  else String.mk [c]

/-- JSON string literal serialization, quotes included. -/
def quoteString (s : String) : String :=
  "\"" ++ joinWith "" (s.toList.map escapeChar) ++ "\""

/-- Serialize a primitive the way `JSON.stringify` does. -/
def stringifyPrim : JsPrim → String
  | JsPrim.null => "null"
  | JsPrim.bool true => "true"
  | JsPrim.bool false => "false"
  | JsPrim.num n => toString n
  | JsPrim.str s => quoteString s

/-- Model of `JSON.stringify(v, null, 2)` on the flat subset: the empty
object prints as braces, other objects one 2-space-indented field per
line. -/
def jsonStringify : JsValue → String
  | JsValue.prim p => stringifyPrim p
  | JsValue.obj [] => String.mk [lbrace] ++ String.mk [rbrace]
  | JsValue.obj fs =>
      String.mk [lbrace] ++ "\n"
        ++ joinWith ",\n" (fs.map (fun kv => "  " ++ quoteString kv.1 ++ ": " ++ stringifyPrim kv.2))
        ++ "\n" ++ String.mk [rbrace]

/-! Parser for the flat JSON subset, modelling `JSON.parse`.  Strictly a
restriction of the JS behaviour: everything it accepts, `JSON.parse`
accepts with the same value; arrays, nested objects, fractional or
longer-than-15-digit numerals and surrogate escapes are rejected. -/

/-- JSON insignificant whitespace (RFC 8259). -/
def isJsonWs (c : Char) : Bool :=
  c = ' ' || c = '\t' || c = '\n' || c = '\r'

/-- Drop leading JSON whitespace. -/
def skipWs (cs : List Char) : List Char :=
  cs.dropWhile isJsonWs

/-- Value of a hexadecimal digit. -/
def hexVal (c : Char) : Option Nat :=
  if '0' ≤ c ∧ c ≤ '9' then some (c.toNat - 48)
  else if 'a' ≤ c ∧ c ≤ 'f' then some (c.toNat - 87)
  else if 'A' ≤ c ∧ c ≤ 'F' then some (c.toNat - 55)
  else none

/-- Parse the body of a string literal after its opening quote; returns
the decoded characters and the remainder after the closing quote.
Surrogate code points are rejected (they are not Lean scalar values). -/
def parseStringBody : Nat → List Char → Option (List Char × List Char)
  | _, [] => none
  | 0, _ => none
  | fuel + 1, c :: rest =>
    if c = '"' then some ([], rest)
    else if c = '\\' then
      match rest with
      | [] => none
      | e :: rest2 =>
        if e = '"' ∨ e = '\\' ∨ e = '/' then
          (parseStringBody fuel rest2).map (fun pr => (e :: pr.1, pr.2))
        else if e = 'b' then
          (parseStringBody fuel rest2).map (fun pr => ('\x08' :: pr.1, pr.2))
        else if e = 'f' then
          (parseStringBody fuel rest2).map (fun pr => ('\x0c' :: pr.1, pr.2))
        else if e = 'n' then
          (parseStringBody fuel rest2).map (fun pr => ('\n' :: pr.1, pr.2))
        else if e = 'r' then
          (parseStringBody fuel rest2).map (fun pr => ('\r' :: pr.1, pr.2))
        else if e = 't' then
          (parseStringBody fuel rest2).map (fun pr => ('\t' :: pr.1, pr.2))
        else if e = 'u' then
          match rest2 with
          | h1 :: h2 :: h3 :: h4 :: rest3 =>
            match hexVal h1, hexVal h2, hexVal h3, hexVal h4 with
            | some a, some b, some c2, some d =>
              let code := ((a * 16 + b) * 16 + c2) * 16 + d
              if 55296 ≤ code ∧ code < 57344 then none
              else (parseStringBody fuel rest3).map (fun pr => (Char.ofNat code :: pr.1, pr.2))
            | _, _, _, _ => none
          | _ => none
        else none
    else if c.toNat < 32 then none
    else (parseStringBody fuel rest).map (fun pr => (c :: pr.1, pr.2))

/-- Decimal digit test. -/
def isDigitChar (c : Char) : Bool :=
  '0' ≤ c ∧ c ≤ '9'

/-- Numeric value of a digit run. -/
def digitsVal (ds : List Char) : Nat :=
  ds.foldl (fun acc c => acc * 10 + (c.toNat - 48)) 0

/-- Parse an integer numeral (sign, digits, no leading zero, at most 15
digits so the JS float is exact, not followed by a fraction/exponent). -/
def parseNumber (cs : List Char) : Option (Int × List Char) :=
  let neg : Bool := match cs with
    | c :: _ => c = '-'
    | [] => false
  let cs1 := if neg then cs.drop 1 else cs
  let ds := cs1.takeWhile isDigitChar
  let rest := cs1.dropWhile isDigitChar
  if ds = [] then none
  else if ds.headD '0' = '0' ∧ ds.length > 1 then none
  else if ds.length > 15 then none
  else
    match rest with
    | c :: _ =>
      if c = '.' ∨ c = 'e' ∨ c = 'E' then none
      else some (if neg then -(digitsVal ds : Int) else (digitsVal ds : Int), rest)
    | [] => some (if neg then -(digitsVal ds : Int) else (digitsVal ds : Int), rest)

/-- Parse one JSON primitive. -/
def parsePrim : List Char → Option (JsPrim × List Char)
  | 'n' :: 'u' :: 'l' :: 'l' :: rest => some (JsPrim.null, rest)
  | 't' :: 'r' :: 'u' :: 'e' :: rest => some (JsPrim.bool true, rest)
  | 'f' :: 'a' :: 'l' :: 's' :: 'e' :: rest => some (JsPrim.bool false, rest)
  | '"' :: rest =>
    (parseStringBody rest.length rest).map
      (fun pr => (JsPrim.str (String.mk pr.1), pr.2))
  | cs => (parseNumber cs).map (fun pr => (JsPrim.num pr.1, pr.2))

/-- Parse the members of an object after at least one member is known to
follow; returns the raw key/value pairs in textual order and the
remainder after the closing brace. -/
def parseMembersLoop : Nat → List Char → Option (List (String × JsPrim) × List Char)
  | 0, _ => none
  | fuel + 1, cs =>
    match cs with
    | '"' :: rest =>
      match parseStringBody rest.length rest with
      | none => none
      | some (keyChars, rest2) =>
        match skipWs rest2 with
        | ':' :: rest3 =>
          match parsePrim (skipWs rest3) with
          | none => none
          | some (v, rest4) =>
            match skipWs rest4 with
            | ',' :: rest5 =>
              (parseMembersLoop fuel (skipWs rest5)).map
                (fun pr => ((String.mk keyChars, v) :: pr.1, pr.2))
            | c :: rest5 =>
              if c = rbrace then some ([(String.mk keyChars, v)], rest5) else none
            | [] => none
        | _ => none
    | _ => none

/-- Parse an object body after its opening brace. -/
def parseMembers (fuel : Nat) (cs : List Char) : Option (List (String × JsPrim) × List Char) :=
  match skipWs cs with
  | c :: rest =>
    if c = rbrace then some ([], rest)
    else parseMembersLoop fuel (skipWs cs)
  | [] => none

/-- Parse one JSON value; the input must already have leading
whitespace removed.  Objects are built by JS property assignment, so a
duplicated key keeps its first position and its last value, and the
resulting field list never binds a key twice. -/
def parseValue (cs : List Char) : Option (JsValue × List Char) :=
  match cs with
  | c :: rest =>
    if c = lbrace then
      (parseMembers rest.length rest).map
        (fun pr => (JsValue.obj (jsAssignList [] pr.1), pr.2))
    else (parsePrim cs).map (fun pr => (JsValue.prim pr.1, pr.2))
  | [] => none

/-- Model of `JSON.parse` on the flat subset; `none` plays the role of
the thrown `SyntaxError`. -/
def jsonParse (s : String) : Option JsValue :=
  match parseValue (skipWs s.toList) with
  | some (v, rest) => if skipWs rest = [] then some v else none
  | none => none

/-- JS object spread `\x7b ...a, ...b \x7d`: assign the enumerable
properties of `a`, then those of `b`, into a fresh object. -/
def jsSpread2 (a b : JsValue) : List (String × JsPrim) :=
  jsAssignList (jsAssignList [] (spreadFields a)) (spreadFields b)

/-- Embedding of `mergeJsonStrings` (src/core/utils.ts, lines 49-61).
An empty (falsy) input stands for the empty object; a failing
`JSON.parse` takes the catch branch, which returns `existingJson`
unchanged.  The merged object spreads `newData` first and `existingData`
second, so existing keys win, and is pretty-printed with 2-space
indentation. -/
def mergeJsonStrings (existingJson newJson : String) : String :=
  match (if existingJson = "" then some (JsValue.obj []) else jsonParse existingJson),
        (if newJson = "" then some (JsValue.obj []) else jsonParse newJson) with
  | some e, some n => jsonStringify (JsValue.obj (jsSpread2 n e))
  | _, _ => existingJson

/-! Model Gateway (src/core/llm.ts).  Prompt loading and the network
call are external; each operation below receives the raw response text
the backend produced and models the response-parsing tail of the
corresponding method.  `Except.error` plays the role of the thrown
`Error`. -/

/-- The literal final-answer delimiter used by all three operations. -/
def finalMarker : String := "REPONSE FINALE :"

/-- Response parsing of `LLM.chooseLanguage`: split on the marker,
reject when fewer than two segments result, otherwise return segment 1
(the text after the first marker occurrence, up to the next), trimmed. -/
def chooseLanguageParse (response : String) : Except String String :=
  let parts := jsSplit finalMarker response
  if parts.length < 2 then Except.error ("LLM response not valid: " ++ response)
  else Except.ok (jsTrim (parts.getD 1 ""))

/-- Response parsing of `LLM.process` (the extract operation): same
split rule as `chooseLanguageParse`, different error message. -/
def llmProcessParse (response : String) : Except String String :=
  let parts := jsSplit finalMarker response
  if parts.length < 2 then Except.error ("Response shape not valid: " ++ response)
  else Except.ok (jsTrim (parts.getD 1 ""))

/-- Response parsing of `LLM.amendArb` (the translate operation): the
returned segment is `parts.slice(-1)[0]`, the text after the last
marker occurrence, trimmed. -/
def amendArbParse (response : String) : Except String String :=
  let parts := jsSplit finalMarker response
  if parts.length < 2 then Except.error ("LLM response not valid: " ++ response)
  else Except.ok (jsTrim (parts.getLastD ""))

/-! Paths and the file-system model.  Paths are plain strings;
`path.resolve` is the identity (all paths are taken as already
absolute), and `dirname`, `basename` and `join` implement the
slash-splitting core of the Node functions (no `..` normalization,
which the pipeline never needs). -/

/-- Model of `path.basename`: the part after the last slash. -/
def basename (p : String) : String :=
  String.mk ((p.toList.reverse.takeWhile (fun c => ¬ c = '/')).reverse)

/-- Model of `path.dirname`: the part before the last slash, or a dot
when there is no slash. -/
def dirname (p : String) : String :=
  if containsSub ['/'] p.toList then
    String.mk (((p.toList.reverse.dropWhile (fun c => ¬ c = '/')).drop 1).reverse)
  else "."

/-- Model of `path.join` on two segments. -/
def pathJoin (a b : String) : String :=
  if a = "." ∨ a = "" then b else a ++ "/" ++ b

/-- The sibling temporary file name `atomicWrite` writes to; `now`
stands for the `Date.now()` timestamp. -/
def tmpNameOf (now : Nat) (filePath : String) : String :=
  pathJoin (dirname filePath) (".tmp-" ++ toString now ++ "-" ++ basename filePath)

/-- File system: contents by path. -/
def Fs : Type := String → Option String

/-- Effect of `fs.writeFile`. -/
def fsWrite (fs : Fs) (p content : String) : Fs :=
  fun q => if q = p then some content else fs q

/-- Effect of `fs.rename src dst` (atomic: the destination changes in
one step, the source entry disappears). -/
def fsRename (fs : Fs) (src dst : String) : Fs :=
  fun q => if q = dst then fs src else if q = src then none else fs q

/-- Effect of `fs.copyFile src dst` (callers check that `src` exists). -/
def fsCopy (fs : Fs) (src dst : String) : Fs :=
  fun q => if q = dst then fs src else fs q

/-- Embedding of `backupFiles` (src/core/utils.ts, lines 8-20): when the
target exists, copy it to the sibling `.bak` path; a missing target is
caught and ignored. -/
def backupFilesFs (fs : Fs) (filePath : String) : Fs :=
  match fs filePath with
  | some _ => fsCopy fs filePath (filePath ++ ".bak")
  | none => fs

/-- Embedding of `atomicWrite` (src/core/utils.ts, lines 30-39) with an
injected fault: `tmpWriteOk = false` means the temporary-file write
step raises before the rename, so the function stops there (the boolean
result records success).  Otherwise the content is written to the
sibling temporary file, which is then renamed over the target. -/
def atomicWriteModel (fs : Fs) (filePath content : String) (backup : Bool) (now : Nat)
    (tmpWriteOk : Bool) : Fs × Bool :=
  let fs1 := if backup then backupFilesFs fs filePath else fs
  if tmpWriteOk then
    let tmpName := tmpNameOf now filePath
    let fs2 := fsWrite fs1 tmpName content
    (fsRename fs2 tmpName filePath, true)
  else (fs1, false)

/-- The fault-free run of `atomicWrite`, as used by the pipeline. -/
def atomicWriteFs (fs : Fs) (filePath content : String) (backup : Bool) (now : Nat) : Fs :=
  (atomicWriteModel fs filePath content backup now true).1

/-! Localization pipeline (src/core/l10nProcessor.ts).  The LLM calls
are replaced by an oracle holding the raw response texts, consumed one
per call in program order; everything else follows `process()` line by
line. -/

/-- Allowed language-tag characters, the regex class a-zA-Z0-9_- of the
sanitization step. -/
def isTagChar (c : Char) : Bool :=
  ('a' ≤ c ∧ c ≤ 'z') ∨ ('A' ≤ c ∧ c ≤ 'Z') ∨ ('0' ≤ c ∧ c ≤ '9') ∨ c = '_' ∨ c = '-'

/-- Embedding of the sanitization at lines 123-125 of the processor:
`Array.from(raw).filter(c => /[a-zA-Z0-9_-]/.test(c)).join("")`. -/
def sanitizeLangTag (raw : String) : String :=
  String.mk (raw.toList.filter isTagChar)

/-- The target bundle path built at lines 123-129: the detected tag is
sanitized and spliced into `app_<tag>.arb` inside the bundle folder. -/
def targetArbPathOf (folder rawTag : String) : String :=
  pathJoin folder ("app_" ++ sanitizeLangTag rawTag ++ ".arb")

/-- Language tag derived from a bundle file name (lines 106-108 and
207): `name.split("_")[1].split(".")[0]`.  Callers only pass names that
start with `app_`, so segment 1 exists. -/
def deriveLangTag (name : String) : String :=
  (jsSplit "." ((jsSplit "_" name).getD 1 "")).getD 0 ""

/-- Cleanup of the model output at lines 163-167: trim, then drop every
JSON wrapper tag and closing dart tag. -/
def cleanResponse (finalResponse : String) : String :=
  jsReplaceAll "</dart>" "" (jsReplaceAll "</JSON>" "" (jsReplaceAll "<JSON>" "" (jsTrim finalResponse)))

/-- Split of the cleaned response at lines 170-172 into the extracted
keys segment and the rewritten-source segment; a missing dart separator
leaves the second segment empty. -/
def splitDart (striped : String) : String × String :=
  let parts := jsSplit "<dart>" striped
  (jsTrim (parts.getD 0 ""), jsTrim (parts.getD 1 ""))

/-- Configuration handed to `L10nProcessor` (backend selector, model
name and API key configure only the external backend and are omitted). -/
structure Config where
  arbsFolder : String
  files : List String
  packageName : String
  backup : Bool

/-- Raw response texts of the external model, one list entry per call
in program order. -/
structure Oracle where
  chooseLanguage : String
  processResps : List String
  amendResps : List String

/-- The world a run sees: file contents by path, and directory listings
(base names) for the folders that exist. -/
structure World where
  fs : Fs
  folders : String → Option (List String)

/-- State threaded through the per-file loop: the file system, the
accumulated `fullArbLines` record, and a counter standing in for
`Date.now()` in temporary-file names. -/
structure PState where
  fs : Fs
  fullArb : List (String × JsPrim)
  clock : Nat

/-- Embedding of the per-file loop (lines 142-196).  A missing file is
skipped with a warning; everything else runs without any try/catch, so
an invalid model response (`llmProcessParse` error) or a keys segment
that fails to parse propagates out and ends the whole run. -/
def processFiles (targetArbPath : String) (backup : Bool) :
    List String → List String → PState → PState × Except String Unit
  | [], _, st => (st, Except.ok ())
  | f :: rest, resps, st =>
    match st.fs f with
    | none => processFiles targetArbPath backup rest resps st
    | some _flutterContent =>
      match llmProcessParse (resps.headD "") with
      | Except.error e => (st, Except.error e)
      | Except.ok payload =>
        match jsonParse (if (splitDart (cleanResponse payload)).1 = ""
            then String.mk [lbrace] ++ String.mk [rbrace]
            else (splitDart (cleanResponse payload)).1) with
        | none =>
          (st, Except.error ("SyntaxError: JSON.parse: " ++ (splitDart (cleanResponse payload)).1))
        | some parsed =>
          let fullArb := jsAssignList st.fullArb (spreadFields parsed)
          let st1 : PState := ⟨atomicWriteFs st.fs targetArbPath
              (mergeJsonStrings
                ((st.fs targetArbPath).getD (String.mk [lbrace] ++ String.mk [rbrace]))
                (jsonStringify (JsValue.obj fullArb)))
              backup st.clock, fullArb, st.clock + 1⟩
          let st2 : PState :=
            if (splitDart (cleanResponse payload)).2 = "" then st1
            else ⟨atomicWriteFs st1.fs f ((splitDart (cleanResponse payload)).2) backup st1.clock,
              fullArb, st1.clock + 1⟩
          processFiles targetArbPath backup rest resps.tail st2

/-- Embedding of the translation loop (lines 206-226).  Again no
try/catch: a failing `amendArb` call ends the run; otherwise the
translated text is merged into that language's bundle (existing wins)
and written atomically. -/
def translateOthers (backup : Bool) (fullArbJson : String) :
    List String → List String → Fs → Nat → (Fs × Nat) × Except String Unit
  | [], _, fs, clock => ((fs, clock), Except.ok ())
  | arbFile :: rest, resps, fs, clock =>
    match amendArbParse (resps.headD "") with
    | Except.error e => ((fs, clock), Except.error e)
    | Except.ok translated =>
      translateOthers backup fullArbJson rest resps.tail
        (atomicWriteFs fs arbFile
          (mergeJsonStrings ((fs arbFile).getD (String.mk [lbrace] ++ String.mk [rbrace]))
            translated)
          backup clock)
        (clock + 1)

/-- Embedding of `L10nProcessor.process` (lines 88-227).  Returns the
final file system together with the run outcome; `Except.error` models
the rejected promise, and the file system paired with it is the state
at the moment of the throw. -/
def processRun (cfg : Config) (o : Oracle) (w : World) : Fs × Except String Unit :=
  match w.folders cfg.arbsFolder with
  | none => (w.fs, Except.error ("The folder " ++ cfg.arbsFolder ++ " does not exist."))
  | some names =>
    let arbFiles := (names.filter (fun f => strStartsWith f "app_" && strEndsWith f ".arb")).map
      (pathJoin cfg.arbsFolder)
    let _langs := arbFiles.map (fun f => deriveLangTag (basename f))
    match cfg.files.head? with
    | none =>
      (w.fs, Except.error "TypeError: the path argument must be of type string, received undefined")
    | some f0 =>
      match w.fs f0 with
      | none => (w.fs, Except.error ("Flutter file not found: " ++ f0))
      | some _langProof =>
        match chooseLanguageParse o.chooseLanguage with
        | Except.error e => (w.fs, Except.error e)
        | Except.ok langTagRaw =>
          let targetArbPath := targetArbPathOf cfg.arbsFolder langTagRaw
          let _arbContent := (w.fs targetArbPath).getD (String.mk [lbrace] ++ String.mk [rbrace])
          match processFiles targetArbPath cfg.backup cfg.files o.processResps ⟨w.fs, [], 0⟩ with
          | (st, Except.error e) => (st.fs, Except.error e)
          | (st, Except.ok ()) =>
            let otherArbFiles := arbFiles.filter (fun f => ¬ f = targetArbPath)
            let fullArbJson := jsonStringify (JsValue.obj st.fullArb)
            match translateOthers cfg.backup fullArbJson otherArbFiles o.amendResps st.fs st.clock with
            | ((fs2, _), r2) => (fs2, r2)

/-! Helper lemmas about the splitter. -/

theorem splitCLF_ne_nil (c0 : Char) (cs : List Char) (fuel : Nat) (s : List Char) :
    splitCLF c0 cs fuel s ≠ [] := by
  match fuel, s with
  | _, [] => simp [splitCLF]
  | 0, c :: rest => simp [splitCLF]
  | fuel + 1, c :: rest =>
    unfold splitCLF
    by_cases h : (c0 :: cs).isPrefixOf (c :: rest) = true
    · simp [h]
    · simp only [Bool.not_eq_true] at h
      simp only [h, Bool.false_eq_true, if_false]
      cases hr : splitCLF c0 cs fuel rest <;> simp

theorem splitCL_ne_nil (c0 : Char) (cs : List Char) (s : List Char) :
    splitCL c0 cs s ≠ [] :=
  splitCLF_ne_nil c0 cs s.length s

theorem isPrefixOf_nil_false (c0 : Char) (cs : List Char) :
    (c0 :: cs).isPrefixOf ([] : List Char) = false := by
  simp [List.isPrefixOf]

theorem splitCLF_of_not_contains (c0 : Char) (cs : List Char) :
    ∀ (fuel : Nat) (s : List Char), s.length ≤ fuel →
      containsSub (c0 :: cs) s = false → splitCLF c0 cs fuel s = [s] := by
  intro fuel
  induction fuel with
  | zero =>
    intro s hs _
    match s, hs with
    | [], _ => simp [splitCLF]
  | succ fuel ih =>
    intro s hs hc
    match s with
    | [] => simp [splitCLF]
    | c :: rest =>
      unfold containsSub at hc
      rw [Bool.or_eq_false_iff] at hc
      unfold splitCLF
      rw [hc.1]
      simp only [Bool.false_eq_true, if_false]
      rw [ih rest (by simpa using Nat.le_of_succ_le_succ hs) hc.2]

theorem splitCLF_two_of_contains (c0 : Char) (cs : List Char) :
    ∀ (fuel : Nat) (s : List Char), s.length ≤ fuel →
      containsSub (c0 :: cs) s = true → 2 ≤ (splitCLF c0 cs fuel s).length := by
  intro fuel
  induction fuel with
  | zero =>
    intro s hs hc
    match s, hs with
    | [], _ =>
      rw [containsSub, isPrefixOf_nil_false] at hc
      exact absurd hc (by simp)
  | succ fuel ih =>
    intro s hs hc
    match s with
    | [] =>
      rw [containsSub, isPrefixOf_nil_false] at hc
      exact absurd hc (by simp)
    | c :: rest =>
      unfold splitCLF
      by_cases hp : (c0 :: cs).isPrefixOf (c :: rest) = true
      · rw [hp]
        simp only [if_true, List.length_cons]
        have := splitCLF_ne_nil c0 cs fuel ((c :: rest).drop (cs.length + 1))
        have hlen : 1 ≤ (splitCLF c0 cs fuel ((c :: rest).drop (cs.length + 1))).length := by
          cases h : splitCLF c0 cs fuel ((c :: rest).drop (cs.length + 1)) with
          | nil => exact absurd h this
          | cons a l => simp
        omega
      · simp only [Bool.not_eq_true] at hp
        rw [hp]
        simp only [Bool.false_eq_true, if_false]
        rw [containsSub, hp] at hc
        simp only [Bool.false_or] at hc
        have h2 := ih rest (by simpa using Nat.le_of_succ_le_succ hs) hc
        cases h : splitCLF c0 cs fuel rest with
        | nil => exact absurd h (splitCLF_ne_nil c0 cs fuel rest)
        | cons g gs =>
          rw [h] at h2
          simp only [List.length_cons] at h2 ⊢
          omega

theorem splitCL_of_not_contains (c0 : Char) (cs : List Char) (s : List Char)
    (hc : containsSub (c0 :: cs) s = false) : splitCL c0 cs s = [s] :=
  splitCLF_of_not_contains c0 cs s.length s (Nat.le_refl _) hc

theorem splitCL_two_of_contains (c0 : Char) (cs : List Char) (s : List Char)
    (hc : containsSub (c0 :: cs) s = true) : 2 ≤ (splitCL c0 cs s).length :=
  splitCLF_two_of_contains c0 cs s.length s (Nat.le_refl _) hc

theorem isPrefixOf_single (c x : Char) (rest : List Char) :
    [c].isPrefixOf (x :: rest) = (c == x) := by
  simp [List.isPrefixOf]

theorem splitCLF_cons_eq (c0 : Char) (cs : List Char) (fuel : Nat) (c : Char) (rest : List Char) :
    splitCLF c0 cs (fuel + 1) (c :: rest) =
      if (c0 :: cs).isPrefixOf (c :: rest) then
        [] :: splitCLF c0 cs fuel ((c :: rest).drop (cs.length + 1))
      else
        match splitCLF c0 cs fuel rest with
        | [] => [[c]]
        | g :: gs => (c :: g) :: gs := by
  rw [splitCLF]

theorem splitCL_single_hit (c : Char) (rest : List Char) :
    splitCL c [] (c :: rest) = [] :: splitCL c [] rest := by
  have h := splitCLF_cons_eq c [] rest.length c rest
  rw [isPrefixOf_single] at h
  simp only [beq_self_eq_true, if_true] at h
  exact h

theorem splitCL_single_miss (c x : Char) (rest : List Char) (h : ¬ x = c) :
    splitCL c [] (x :: rest) =
      match splitCL c [] rest with
      | [] => [[x]]
      | g :: gs => (x :: g) :: gs := by
  have he := splitCLF_cons_eq c [] rest.length x rest
  rw [isPrefixOf_single] at he
  have hb : (c == x) = false := by
    simp only [beq_eq_false_iff_ne, ne_eq]
    intro hh
    exact h hh.symm
  rw [hb] at he
  simp only [Bool.false_eq_true, if_false] at he
  exact he

theorem splitCL_single_append (c : Char) (a b : List Char) (ha : ¬ c ∈ a) :
    splitCL c [] (a ++ c :: b) = a :: splitCL c [] b := by
  induction a with
  | nil =>
    simp only [List.nil_append]
    rw [splitCL_single_hit]
  | cons x a ih =>
    have hx : ¬ x = c := by
      intro hh
      exact ha (by simp [hh])
    have ha2 : ¬ c ∈ a := by
      intro hh
      exact ha (by simp [hh])
    rw [List.cons_append, splitCL_single_miss c x _ hx, ih ha2]

theorem splitCL_single_head_cons (c x : Char) (rest : List Char) (h : ¬ x = c) :
    (splitCL c [] (x :: rest)).getD 0 [] = x :: (splitCL c [] rest).getD 0 [] := by
  rw [splitCL_single_miss c x rest h]
  cases hr : splitCL c [] rest with
  | nil => simp
  | cons g gs => simp

theorem splitCL_single_head_append (c : Char) (a b : List Char) (ha : ¬ c ∈ a) :
    (splitCL c [] (a ++ b)).getD 0 [] = a ++ (splitCL c [] b).getD 0 [] := by
  induction a with
  | nil => simp
  | cons x a ih =>
    have hx : ¬ x = c := by
      intro hh
      exact ha (by simp [hh])
    have ha2 : ¬ c ∈ a := by
      intro hh
      exact ha (by simp [hh])
    rw [List.cons_append, splitCL_single_head_cons c x _ hx, ih ha2, List.cons_append]

theorem mk_toList (s : String) : String.mk s.toList = s := rfl

theorem jsSplit_eq_of_toList (sep s : String) (c : Char) (cs : List Char)
    (h : sep.toList = c :: cs) : jsSplit sep s = (splitCL c cs s.toList).map String.mk := by
  simp only [jsSplit, h]

theorem jsSplit_of_not_contains (sep s : String) (c : Char) (cs : List Char)
    (hsep : sep.toList = c :: cs) (h : containsSubstr sep s = false) :
    jsSplit sep s = [s] := by
  rw [jsSplit_eq_of_toList sep s c cs hsep]
  rw [containsSubstr, hsep] at h
  rw [splitCL_of_not_contains c cs s.toList h]
  simp [mk_toList]

theorem jsSplit_two_of_contains (sep s : String) (c : Char) (cs : List Char)
    (hsep : sep.toList = c :: cs) (h : containsSubstr sep s = true) :
    2 ≤ (jsSplit sep s).length := by
  rw [jsSplit_eq_of_toList sep s c cs hsep]
  rw [containsSubstr, hsep] at h
  rw [List.length_map]
  exact splitCL_two_of_contains c cs s.toList h

theorem finalMarker_toList :
    finalMarker.toList = 'R' :: "EPONSE FINALE :".toList := rfl

theorem dartTag_toList :
    ("<dart>" : String).toList = '<' :: "dart>".toList := rfl

theorem chooseLanguageParse_of_not_contains (r : String)
    (h : containsSubstr finalMarker r = false) :
    chooseLanguageParse r = Except.error ("LLM response not valid: " ++ r) := by
  unfold chooseLanguageParse
  rw [jsSplit_of_not_contains finalMarker r _ _ finalMarker_toList h]
  simp

theorem llmProcessParse_of_not_contains (r : String)
    (h : containsSubstr finalMarker r = false) :
    llmProcessParse r = Except.error ("Response shape not valid: " ++ r) := by
  unfold llmProcessParse
  rw [jsSplit_of_not_contains finalMarker r _ _ finalMarker_toList h]
  simp

theorem amendArbParse_of_not_contains (r : String)
    (h : containsSubstr finalMarker r = false) :
    amendArbParse r = Except.error ("LLM response not valid: " ++ r) := by
  unfold amendArbParse
  rw [jsSplit_of_not_contains finalMarker r _ _ finalMarker_toList h]
  simp

theorem chooseLanguageParse_of_contains (r : String)
    (h : containsSubstr finalMarker r = true) :
    chooseLanguageParse r = Except.ok (jsTrim ((jsSplit finalMarker r).getD 1 "")) := by
  unfold chooseLanguageParse
  have h2 := jsSplit_two_of_contains finalMarker r _ _ finalMarker_toList h
  rw [if_neg (by omega)]

theorem llmProcessParse_of_contains (r : String)
    (h : containsSubstr finalMarker r = true) :
    llmProcessParse r = Except.ok (jsTrim ((jsSplit finalMarker r).getD 1 "")) := by
  unfold llmProcessParse
  have h2 := jsSplit_two_of_contains finalMarker r _ _ finalMarker_toList h
  rw [if_neg (by omega)]

theorem amendArbParse_of_contains (r : String)
    (h : containsSubstr finalMarker r = true) :
    amendArbParse r = Except.ok (jsTrim ((jsSplit finalMarker r).getLastD "")) := by
  unfold amendArbParse
  have h2 := jsSplit_two_of_contains finalMarker r _ _ finalMarker_toList h
  rw [if_neg (by omega)]

/-! Helper lemmas about property lookup and assignment. -/

theorem jsLookup_assign_self (l : List (String × JsPrim)) (k : String) (v : JsPrim) :
    jsLookup (jsAssign l k v) k = some v := by
  induction l with
  | nil => simp [jsAssign, jsLookup]
  | cons p rest ih =>
    obtain ⟨k0, v0⟩ := p
    by_cases h : k0 = k
    · simp [jsAssign, jsLookup, h]
    · simp [jsAssign, jsLookup, h, ih]

theorem jsLookup_assign_ne (l : List (String × JsPrim)) (k k0 : String) (v : JsPrim)
    (h : ¬ k0 = k) : jsLookup (jsAssign l k v) k0 = jsLookup l k0 := by
  induction l with
  | nil =>
    have hne : ¬ k = k0 := fun hh => h hh.symm
    simp [jsAssign, jsLookup, hne]
  | cons p rest ih =>
    obtain ⟨k1, v1⟩ := p
    by_cases h1 : k1 = k
    · rw [show jsAssign ((k1, v1) :: rest) k v = (k1, v) :: rest by simp [jsAssign, h1]]
      have hne : ¬ k1 = k0 := fun hh => h (hh.symm.trans h1)
      simp [jsLookup, hne]
    · rw [show jsAssign ((k1, v1) :: rest) k v = (k1, v1) :: jsAssign rest k v by
        simp [jsAssign, h1]]
      simp [jsLookup, ih]

theorem jsLookup_append (a b : List (String × JsPrim)) (k : String) :
    jsLookup (a ++ b) k =
      match jsLookup a k with
      | some v => some v
      | none => jsLookup b k := by
  induction a with
  | nil => simp [jsLookup]
  | cons p rest ih =>
    obtain ⟨k0, v0⟩ := p
    by_cases h : k0 = k
    · simp [jsLookup, h]
    · simp [jsLookup, h, ih]

theorem lastLookup_cons (k0 : String) (v0 : JsPrim) (l : List (String × JsPrim)) (k : String) :
    lastLookup ((k0, v0) :: l) k =
      match lastLookup l k with
      | some v => some v
      | none => if k0 = k then some v0 else none := by
  unfold lastLookup
  rw [List.reverse_cons, jsLookup_append]
  cases h : jsLookup l.reverse k with
  | none => simp [jsLookup]
  | some v => simp

theorem jsLookup_assignList (fields : List (String × JsPrim)) :
    ∀ (base : List (String × JsPrim)) (k : String),
      jsLookup (jsAssignList base fields) k =
        match lastLookup fields k with
        | some v => some v
        | none => jsLookup base k := by
  induction fields with
  | nil =>
    intro base k
    simp [jsAssignList, lastLookup, jsLookup]
  | cons p rest ih =>
    intro base k
    obtain ⟨k0, v0⟩ := p
    rw [show jsAssignList base ((k0, v0) :: rest) = jsAssignList (jsAssign base k0 v0) rest
      from rfl]
    rw [ih (jsAssign base k0 v0) k, lastLookup_cons]
    cases h : lastLookup rest k with
    | some v => simp
    | none =>
      simp only
      by_cases hk : k0 = k
      · subst hk
        rw [jsLookup_assign_self]
        simp
      · rw [jsLookup_assign_ne base k0 k v0 (fun hh => hk hh.symm)]
        simp [hk]

theorem jsLookup_cons_ne (k0 : String) (v0 : JsPrim) (rest : List (String × JsPrim))
    (k : String) (h : ¬ k0 = k) : jsLookup ((k0, v0) :: rest) k = jsLookup rest k := by
  simp [jsLookup, h]

theorem jsLookup_none_iff (l : List (String × JsPrim)) (k : String) :
    jsLookup l k = none ↔ ¬ k ∈ keysOf l := by
  induction l with
  | nil => simp [jsLookup, keysOf]
  | cons p rest ih =>
    obtain ⟨k0, v0⟩ := p
    by_cases h : k0 = k
    · subst h
      simp [jsLookup, keysOf]
    · have hmem : (k ∈ keysOf ((k0, v0) :: rest)) ↔ k ∈ keysOf rest := by
        unfold keysOf
        simp only [List.map_cons, List.mem_cons]
        constructor
        · rintro (hh | hh)
          · exact absurd hh.symm h
          · exact hh
        · intro hh
          exact Or.inr hh
      rw [jsLookup_cons_ne k0 v0 rest k h, ih]
      rw [iff_iff_eq] at hmem ⊢
      rw [hmem]

theorem lastLookup_none_iff (l : List (String × JsPrim)) (k : String) :
    lastLookup l k = none ↔ ¬ k ∈ keysOf l := by
  unfold lastLookup
  rw [jsLookup_none_iff]
  unfold keysOf
  rw [List.map_reverse, List.mem_reverse]

theorem keysOf_assign (l : List (String × JsPrim)) (k : String) (v : JsPrim) :
    keysOf (jsAssign l k v) = if k ∈ keysOf l then keysOf l else keysOf l ++ [k] := by
  induction l with
  | nil => simp [jsAssign, keysOf]
  | cons p rest ih =>
    obtain ⟨k0, v0⟩ := p
    by_cases h : k0 = k
    · subst h
      simp [jsAssign, keysOf]
    · rw [show jsAssign ((k0, v0) :: rest) k v = (k0, v0) :: jsAssign rest k v by
        simp [jsAssign, h]]
      rw [show keysOf ((k0, v0) :: jsAssign rest k v) = k0 :: keysOf (jsAssign rest k v)
        from rfl]
      rw [show keysOf ((k0, v0) :: rest) = k0 :: keysOf rest from rfl]
      rw [ih]
      have hne : ¬ k = k0 := fun hh => h hh.symm
      by_cases hm : k ∈ keysOf rest
      · rw [if_pos hm, if_pos (by rw [List.mem_cons]; exact Or.inr hm)]
      · rw [if_neg hm, if_neg (by
          rw [List.mem_cons]
          rintro (hh | hh)
          · exact hne hh
          · exact hm hh)]
        rw [List.cons_append]

theorem keysNodup_assign (l : List (String × JsPrim)) (k : String) (v : JsPrim)
    (h : (keysOf l).Nodup) : (keysOf (jsAssign l k v)).Nodup := by
  rw [keysOf_assign]
  by_cases hm : k ∈ keysOf l
  · rw [if_pos hm]
    exact h
  · rw [if_neg hm]
    rw [List.nodup_append]
    refine ⟨h, List.nodup_singleton k, ?_⟩
    intro a ha hb
    simp only [List.mem_singleton] at hb
    subst hb
    exact hm ha

theorem keysNodup_assignList (fields : List (String × JsPrim)) :
    ∀ (base : List (String × JsPrim)), (keysOf base).Nodup →
      (keysOf (jsAssignList base fields)).Nodup := by
  induction fields with
  | nil =>
    intro base h
    exact h
  | cons p rest ih =>
    intro base h
    obtain ⟨k0, v0⟩ := p
    exact ih (jsAssign base k0 v0) (keysNodup_assign base k0 v0 h)

theorem lastLookup_eq_jsLookup (l : List (String × JsPrim)) (h : (keysOf l).Nodup) (k : String) :
    lastLookup l k = jsLookup l k := by
  induction l with
  | nil => simp [lastLookup, jsLookup]
  | cons p rest ih =>
    obtain ⟨k0, v0⟩ := p
    rw [show keysOf ((k0, v0) :: rest) = k0 :: keysOf rest from rfl, List.nodup_cons] at h
    obtain ⟨hk0, hnd⟩ := h
    rw [lastLookup_cons]
    by_cases hk : k0 = k
    · subst hk
      rw [(lastLookup_none_iff rest k0).mpr hk0]
      simp [jsLookup]
    · rw [jsLookup_cons_ne k0 v0 rest k hk, ih hnd]
      cases hr : jsLookup rest k with
      | some v => simp
      | none => simp [hk]

theorem jsonParse_empty : jsonParse "" = none := by decide

theorem jsonParse_obj_shape (s : String) (ef : List (String × JsPrim))
    (h : jsonParse s = some (JsValue.obj ef)) : ∃ pairs, ef = jsAssignList [] pairs := by
  unfold jsonParse at h
  cases hv : parseValue (skipWs s.toList) with
  | none =>
    rw [hv] at h
    exact absurd h (by simp)
  | some pr =>
    obtain ⟨v, rest⟩ := pr
    rw [hv] at h
    have h' : (if skipWs rest = [] then some v else none) = some (JsValue.obj ef) := h
    by_cases he : skipWs rest = []
    · rw [if_pos he] at h'
      have hvv : v = JsValue.obj ef := by
        injection h'
      unfold parseValue at hv
      cases hcs : skipWs s.toList with
      | nil =>
        rw [hcs] at hv
        exact absurd hv (by simp)
      | cons c rest0 =>
        rw [hcs] at hv
        have hv2 : (if c = lbrace then
              Option.map (fun pr => (JsValue.obj (jsAssignList [] pr.1), pr.2))
                (parseMembers rest0.length rest0)
            else Option.map (fun pr => (JsValue.prim pr.1, pr.2)) (parsePrim (c :: rest0)))
            = some (v, rest) := hv
        by_cases hc : c = lbrace
        · rw [if_pos hc] at hv2
          cases hm : parseMembers rest0.length rest0 with
          | none =>
            rw [hm] at hv2
            exact absurd hv2 (by simp)
          | some pm =>
            rw [hm] at hv2
            simp only [Option.map_some'] at hv2
            refine ⟨pm.1, ?_⟩
            have hfst : JsValue.obj (jsAssignList [] pm.1) = v := by
              injection hv2 with hv1
              exact congrArg Prod.fst hv1
            rw [hvv] at hfst
            injection hfst with h2
            exact h2.symm
        · rw [if_neg hc] at hv2
          cases hp : parsePrim (c :: rest0) with
          | none =>
            rw [hp] at hv2
            exact absurd hv2 (by simp)
          | some pp =>
            rw [hp] at hv2
            simp only [Option.map_some'] at hv2
            have hfst : JsValue.prim pp.1 = v := by
              injection hv2 with hv1
              exact congrArg Prod.fst hv1
            rw [hvv] at hfst
            exact absurd hfst (by simp)
    · rw [if_neg he] at h'
      exact absurd h' (by simp)

theorem jsonParse_obj_keysNodup (s : String) (ef : List (String × JsPrim))
    (h : jsonParse s = some (JsValue.obj ef)) : (keysOf ef).Nodup := by
  obtain ⟨pairs, hp⟩ := jsonParse_obj_shape s ef h
  rw [hp]
  exact keysNodup_assignList pairs [] (by simp [keysOf])

/-! Claim theorems. -/

/-- C1.  For every pair of strings E and I that each parse as flat JSON
objects (here: with field lists ef and nf), `mergeJsonStrings E I`
returns the serialization of the spread-merged object, whose key set is
the union of the two key sets, in which every key present in E keeps
its value from E (existing wins on collision) and every key present
only in I keeps its value from I. -/
theorem c1_merge_existing_wins (E I : String) (ef nf : List (String × JsPrim))
    (hE : jsonParse E = some (JsValue.obj ef)) (hI : jsonParse I = some (JsValue.obj nf)) :
    mergeJsonStrings E I
        = jsonStringify (JsValue.obj (jsSpread2 (JsValue.obj nf) (JsValue.obj ef)))
      ∧ (∀ k : String, jsLookup (jsSpread2 (JsValue.obj nf) (JsValue.obj ef)) k =
          match jsLookup ef k with
          | some v => some v
          | none => jsLookup nf k)
      ∧ (∀ (k : String) (v : JsPrim), jsLookup ef k = some v →
          jsLookup (jsSpread2 (JsValue.obj nf) (JsValue.obj ef)) k = some v)
      ∧ (∀ (k : String) (v : JsPrim), jsLookup ef k = none → jsLookup nf k = some v →
          jsLookup (jsSpread2 (JsValue.obj nf) (JsValue.obj ef)) k = some v)
      ∧ (∀ k : String, (jsLookup (jsSpread2 (JsValue.obj nf) (JsValue.obj ef)) k).isSome
          ↔ ((jsLookup ef k).isSome ∨ (jsLookup nf k).isSome)) := by
  have hEne : ¬ E = "" := by
    intro hh
    rw [hh, jsonParse_empty] at hE
    exact absurd hE (by simp)
  have hIne : ¬ I = "" := by
    intro hh
    rw [hh, jsonParse_empty] at hI
    exact absurd hI (by simp)
  have hefnd : (keysOf ef).Nodup := jsonParse_obj_keysNodup E ef hE
  have hnfnd : (keysOf nf).Nodup := jsonParse_obj_keysNodup I nf hI
  have hkey : ∀ k : String, jsLookup (jsSpread2 (JsValue.obj nf) (JsValue.obj ef)) k =
      match jsLookup ef k with
      | some v => some v
      | none => jsLookup nf k := by
    intro k
    unfold jsSpread2
    rw [show spreadFields (JsValue.obj nf) = nf from rfl,
      show spreadFields (JsValue.obj ef) = ef from rfl]
    rw [jsLookup_assignList ef (jsAssignList [] nf) k,
      lastLookup_eq_jsLookup ef hefnd k]
    cases h1 : jsLookup ef k with
    | some v => simp
    | none =>
      simp only
      rw [jsLookup_assignList nf [] k, lastLookup_eq_jsLookup nf hnfnd k]
      cases h2 : jsLookup nf k with
      | some v => simp
      | none => simp [jsLookup]
  refine ⟨?_, hkey, ?_, ?_, ?_⟩
  · unfold mergeJsonStrings
    rw [if_neg hEne, if_neg hIne, hE, hI]
  · intro k v hv
    rw [hkey k, hv]
  · intro k v hn hv
    rw [hkey k, hn, hv]
  · intro k
    rw [hkey k]
    cases h1 : jsLookup ef k with
    | some v => simp
    | none => simp

/-- Witness for C1 at concrete bundles: the existing bundle maps key a
to x, the incoming one maps a to y and b to z; the merge serializes the
object that keeps a = x and adds b = z. -/
theorem c1_merge_existing_wins_witness :
    mergeJsonStrings "\x7b\"a\": \"x\"\x7d" "\x7b\"a\": \"y\", \"b\": \"z\"\x7d"
      = jsonStringify (JsValue.obj (jsSpread2
          (JsValue.obj [("a", JsPrim.str "y"), ("b", JsPrim.str "z")])
          (JsValue.obj [("a", JsPrim.str "x")]))) :=
  (c1_merge_existing_wins "\x7b\"a\": \"x\"\x7d" "\x7b\"a\": \"y\", \"b\": \"z\"\x7d"
    [("a", JsPrim.str "x")] [("a", JsPrim.str "y"), ("b", JsPrim.str "z")]
    (by decide) (by decide)).1

/-- C4 counterexample.  The empty string does not parse as JSON (the
real `JSON.parse("")` throws, and the modelled parser rejects it), yet
`mergeJsonStrings "" ""` does not return the first argument unchanged:
the falsy-input branch substitutes the empty object and the function
returns its serialization, the two-character brace string.  So the
claim "for every string A that does not parse as JSON and every string
B, mergeJsonStrings(A, B) returns A unchanged" fails at A = B = "" (its
own second half demands the non-equal brace output there). -/
theorem c4_counterexample :
    jsonParse "" = none ∧ ¬ mergeJsonStrings "" "" = "" := by
  constructor
  · decide
  · decide

/-- C4 amended.  For every NONEMPTY string A that does not parse as
JSON and every string B, `mergeJsonStrings A B` returns A unchanged
(the parse failure is caught, so nothing is thrown); and
`mergeJsonStrings "" ""` returns the serialization of the empty object,
which parses back to the empty object. -/
theorem c4_merge_robustness :
    (∀ A B : String, ¬ A = "" → jsonParse A = none → mergeJsonStrings A B = A)
      ∧ mergeJsonStrings "" "" = jsonStringify (JsValue.obj [])
      ∧ jsonParse (mergeJsonStrings "" "") = some (JsValue.obj []) := by
  refine ⟨?_, by decide, by decide⟩
  intro A B hne hp
  unfold mergeJsonStrings
  rw [if_neg hne, hp]

/-- Witness for C4 at a concrete non-JSON input. -/
theorem c4_merge_robustness_witness :
    mergeJsonStrings "not json" "\x7b\"a\": \"x\"\x7d" = "not json" :=
  c4_merge_robustness.1 "not json" "\x7b\"a\": \"x\"\x7d" (by decide) (by decide)

/-- C6.  The atomic-write protocol: when the temporary-file write
succeeds, the subsequent rename makes the target hold exactly the new
content; when the temporary-file write fails before the rename, the
target still holds its previous content (the backup step, if enabled,
only touches the sibling .bak path).  The file at the target therefore
always holds either its previous or its full new content. -/
theorem c6_atomic_write (fs : Fs) (p content : String) (backup : Bool) (now : Nat) :
    (atomicWriteModel fs p content backup now true).1 p = some content
      ∧ (atomicWriteModel fs p content backup now false).1 p = fs p := by
  constructor
  · unfold atomicWriteModel
    simp only [if_true]
    unfold fsRename fsWrite
    simp
  · unfold atomicWriteModel
    simp only [Bool.false_eq_true, if_false]
    cases backup with
    | false => simp
    | true =>
      simp only [if_true]
      unfold backupFilesFs
      cases h : fs p with
      | none => exact h
      | some c =>
        have hne : ¬ p = p ++ ".bak" := by
          intro hh
          have hl := congrArg String.length hh
          rw [String.length_append] at hl
          simp at hl
          exact absurd hl (by decide)
        unfold fsCopy
        show (if p = p ++ ".bak" then fs p else fs p) = some c
        rw [if_neg hne]
        exact h

/-- C8.  The tag obtained from the model during language detection is
sanitized before use as a file-name fragment: whatever string t the
detection returned, the target bundle path is app_(tag).arb in the
bundle folder where the tag consists exactly of the characters of t
matching a-zA-Z0-9_- (the filter), in their original order (a sublist
of t), with every other character stripped (membership equivalence). -/
theorem c8_sanitize_language_tag (folder t : String) :
    targetArbPathOf folder t
        = pathJoin folder ("app_" ++ String.mk (t.toList.filter isTagChar) ++ ".arb")
      ∧ (sanitizeLangTag t).toList = t.toList.filter isTagChar
      ∧ (sanitizeLangTag t).toList.Sublist t.toList
      ∧ ∀ c : Char, (c ∈ (sanitizeLangTag t).toList) ↔ (c ∈ t.toList ∧ isTagChar c = true) := by
  refine ⟨rfl, rfl, ?_, ?_⟩
  · show (t.toList.filter isTagChar).Sublist t.toList
    exact List.filter_sublist t.toList
  · intro c
    show c ∈ t.toList.filter isTagChar ↔ _
    rw [List.mem_filter]

/-- C10.  A `process()` invocation with an empty input-file list always
fails before any file is created or modified: either the bundle-folder
check fails, or `files[0]` is undefined and `path.resolve` throws; in
both cases the promise rejects with the file system untouched. -/
theorem c10_empty_files_rejects (cfg : Config) (o : Oracle) (w : World)
    (h : cfg.files = []) :
    ∃ e, processRun cfg o w = (w.fs, Except.error e) := by
  unfold processRun
  cases hf : w.folders cfg.arbsFolder with
  | none => exact ⟨_, rfl⟩
  | some names =>
    rw [h]
    exact ⟨_, rfl⟩

/-- Witness for C10: a concrete empty-file-list configuration over a
world whose bundle folder exists and contains a bundle. -/
theorem c10_empty_files_rejects_witness :
    ∃ e, processRun ⟨"l10n", [], "pkg", false⟩ ⟨"", [], []⟩
        ⟨fun p => if p = "l10n/app_en.arb" then some "\x7b\x7d" else none,
         fun d => if d = "l10n" then some ["app_en.arb"] else none⟩
      = ((⟨fun p => if p = "l10n/app_en.arb" then some "\x7b\x7d" else none,
          fun d => if d = "l10n" then some ["app_en.arb"] else none⟩ : World).fs,
         Except.error e) :=
  c10_empty_files_rejects ⟨"l10n", [], "pkg", false⟩ ⟨"", [], []⟩
    ⟨fun p => if p = "l10n/app_en.arb" then some "\x7b\x7d" else none,
     fun d => if d = "l10n" then some ["app_en.arb"] else none⟩ rfl

/-- C9.  For every bundle file named app_(tag).(ext) — tag free of
underscores and dots, as produced by the naming convention — the
derivation `name.split("_")[1].split(".")[0]` used at lines 106-108 and
207 recovers exactly the tag. -/
theorem c9_derive_tag (tag ext : String)
    (h1 : ¬ '_' ∈ tag.toList) (h2 : ¬ '.' ∈ tag.toList) :
    deriveLangTag ("app_" ++ tag ++ "." ++ ext) = tag := by
  have hname : ("app_" ++ tag ++ "." ++ ext).toList
      = ['a', 'p', 'p'] ++ '_' :: (tag.toList ++ '.' :: ext.toList) := by
    show ("app_" ++ tag ++ "." ++ ext).data
        = ['a', 'p', 'p'] ++ '_' :: (tag.data ++ '.' :: ext.data)
    rw [String.data_append, String.data_append, String.data_append]
    rw [List.append_assoc, List.append_assoc]
    rfl
  have hsplit1 : jsSplit "_" ("app_" ++ tag ++ "." ++ ext)
      = String.mk ['a', 'p', 'p']
          :: (splitCL '_' [] (tag.toList ++ '.' :: ext.toList)).map String.mk := by
    rw [jsSplit_eq_of_toList "_" _ '_' [] rfl, hname,
      splitCL_single_append '_' ['a', 'p', 'p'] _ (by decide), List.map_cons]
  have hhead : (splitCL '_' [] (tag.toList ++ '.' :: ext.toList)).getD 0 []
      = tag.toList ++ '.' :: (splitCL '_' [] ext.toList).getD 0 [] := by
    rw [splitCL_single_head_append '_' tag.toList _ h1,
      splitCL_single_head_cons '_' '.' ext.toList (by decide)]
  obtain ⟨g, gs, hg⟩ : ∃ g gs, splitCL '_' [] (tag.toList ++ '.' :: ext.toList) = g :: gs := by
    cases hx : splitCL '_' [] (tag.toList ++ '.' :: ext.toList) with
    | nil => exact absurd hx (splitCL_ne_nil _ _ _)
    | cons g gs => exact ⟨g, gs, rfl⟩
  have hgval : g = tag.toList ++ '.' :: (splitCL '_' [] ext.toList).getD 0 [] := by
    rw [hg] at hhead
    simpa using hhead
  have hmid : (jsSplit "_" ("app_" ++ tag ++ "." ++ ext)).getD 1 "" = String.mk g := by
    rw [hsplit1, hg, List.map_cons]
    rfl
  unfold deriveLangTag
  rw [hmid, hgval]
  have htl : (String.mk (tag.toList ++ '.' :: (splitCL '_' [] ext.toList).getD 0 [])).toList
      = tag.toList ++ '.' :: (splitCL '_' [] ext.toList).getD 0 [] := rfl
  rw [jsSplit_eq_of_toList "." _ '.' [] rfl, htl,
    splitCL_single_append '.' tag.toList _ h2, List.map_cons]
  show String.mk tag.toList = tag
  exact mk_toList tag

/-- Witness for C9: the file name app_fr.arb yields the tag fr. -/
theorem c9_derive_tag_witness : deriveLangTag "app_fr.arb" = "fr" :=
  c9_derive_tag "fr" "arb" (by decide) (by decide)

/-- C3 counterexample.  On a response containing the marker twice, the
detection operation returns the trimmed segment between the first and
second occurrence ("a"), not the text after the last occurrence ("b"),
so "returns the text after the last occurrence of the marker" is false
for it (the translate operation alone takes the last segment). -/
theorem c3_counterexample :
    chooseLanguageParse "REPONSE FINALE :a REPONSE FINALE :b" = Except.ok "a"
      ∧ ¬ chooseLanguageParse "REPONSE FINALE :a REPONSE FINALE :b" = Except.ok "b" := by
  constructor
  · rfl
  · intro h
    rw [show chooseLanguageParse "REPONSE FINALE :a REPONSE FINALE :b" = Except.ok "a"
      from rfl] at h
    injection h with h1
    exact absurd h1 (by decide)

/-- C3 amended.  All three gateway operations reject a response in
which the literal marker does not occur, with the invalid-response
error carrying the raw response; when the marker occurs, detection and
extraction return the trimmed segment after the FIRST occurrence (up
to the next), while translation returns the trimmed segment after the
LAST occurrence. -/
theorem c3_marker_parsing (r : String) :
    (containsSubstr finalMarker r = false →
        chooseLanguageParse r = Except.error ("LLM response not valid: " ++ r)
      ∧ llmProcessParse r = Except.error ("Response shape not valid: " ++ r)
      ∧ amendArbParse r = Except.error ("LLM response not valid: " ++ r))
    ∧ (containsSubstr finalMarker r = true →
        chooseLanguageParse r = Except.ok (jsTrim ((jsSplit finalMarker r).getD 1 ""))
      ∧ llmProcessParse r = Except.ok (jsTrim ((jsSplit finalMarker r).getD 1 ""))
      ∧ amendArbParse r = Except.ok (jsTrim ((jsSplit finalMarker r).getLastD ""))) := by
  constructor
  · intro h
    exact ⟨chooseLanguageParse_of_not_contains r h, llmProcessParse_of_not_contains r h,
      amendArbParse_of_not_contains r h⟩
  · intro h
    exact ⟨chooseLanguageParse_of_contains r h, llmProcessParse_of_contains r h,
      amendArbParse_of_contains r h⟩

/-- Witness for C3 on a concrete marker-free response. -/
theorem c3_marker_parsing_witness :
    chooseLanguageParse "nope" = Except.error ("LLM response not valid: " ++ "nope")
      ∧ llmProcessParse "nope" = Except.error ("Response shape not valid: " ++ "nope")
      ∧ amendArbParse "nope" = Except.error ("LLM response not valid: " ++ "nope") :=
  (c3_marker_parsing "nope").1 (by decide)

/-- C7 counterexample.  A response whose final-answer segment contains
no dart-block separator is ACCEPTED by the extract operation (which
only checks the final-answer delimiter), contradicting "fails whenever
the dart-block separator is absent". -/
theorem c7_counterexample :
    llmProcessParse "REPONSE FINALE : \x7b\"a\": \"b\"\x7d"
        = Except.ok "\x7b\"a\": \"b\"\x7d"
      ∧ containsSubstr "<dart>" "\x7b\"a\": \"b\"\x7d" = false := by
  constructor
  · rfl
  · decide

/-- C7 amended.  The extract operation fails with the invalid-response
error exactly when the final-answer delimiter is absent; an absent
dart-block separator is tolerated: the split of the cleaned payload
yields the whole payload (trimmed) as the keys segment and an EMPTY
rewritten-source segment, which lines 192-195 then treat as "leave the
source file untouched". -/
theorem c7_missing_dart_tolerated (r : String) :
    (containsSubstr finalMarker r = false →
        llmProcessParse r = Except.error ("Response shape not valid: " ++ r))
      ∧ (∀ payload : String, llmProcessParse r = Except.ok payload →
          containsSubstr "<dart>" (cleanResponse payload) = false →
          splitDart (cleanResponse payload) = (jsTrim (cleanResponse payload), "")) := by
  constructor
  · exact llmProcessParse_of_not_contains r
  · intro payload _ hnd
    unfold splitDart
    rw [jsSplit_of_not_contains "<dart>" _ '<' "dart>".toList dartTag_toList hnd]
    simp only [List.getD_cons_zero, List.getD_cons_succ, List.getD_nil]
    rw [show jsTrim "" = "" from rfl]

/-- Witness for C7: a well-delimited response without a dart block. -/
theorem c7_missing_dart_tolerated_witness :
    splitDart (cleanResponse "x") = (jsTrim (cleanResponse "x"), "") :=
  (c7_missing_dart_tolerated "REPONSE FINALE : x").2 "x" rfl (by decide)

/-- C2 counterexample.  A run over two input files whose first model
response lacks the delimiter: the promise rejects with the
invalid-response error (the per-file loop has no try/catch), the second
file is never processed, and its keys never land in the target bundle,
which still holds its original content. -/
theorem c2_counterexample :
    (processRun ⟨"l10n", ["f1.dart", "f2.dart"], "pkg", false⟩
        ⟨"REPONSE FINALE : en",
         ["garbage without marker", "REPONSE FINALE : \x7b\"k2\": \"v2\"\x7d"], []⟩
        ⟨fun p => if p = "f1.dart" then some "Text(hi)"
            else if p = "f2.dart" then some "Text(bye)"
            else if p = "l10n/app_en.arb" then some "\x7b\"greeting\": \"hi\"\x7d" else none,
         fun d => if d = "l10n" then some ["app_en.arb"] else none⟩).2
      = Except.error "Response shape not valid: garbage without marker"
    ∧ (processRun ⟨"l10n", ["f1.dart", "f2.dart"], "pkg", false⟩
        ⟨"REPONSE FINALE : en",
         ["garbage without marker", "REPONSE FINALE : \x7b\"k2\": \"v2\"\x7d"], []⟩
        ⟨fun p => if p = "f1.dart" then some "Text(hi)"
            else if p = "f2.dart" then some "Text(bye)"
            else if p = "l10n/app_en.arb" then some "\x7b\"greeting\": \"hi\"\x7d" else none,
         fun d => if d = "l10n" then some ["app_en.arb"] else none⟩).1 "l10n/app_en.arb"
      = some "\x7b\"greeting\": \"hi\"\x7d" := by
  constructor
  · rfl
  · rfl

/-- C2 amended.  In the per-file loop, a malformed model response for a
file aborts the ENTIRE run at that file instead of skipping it: when
the response for the first pending file lacks the delimiter, or its
keys segment fails to parse, `processFiles` returns the error with the
state (file system included) exactly as it was, so the remaining files
are not processed and nothing further lands in the target bundle.  Only
a MISSING file is skipped with a warning. -/
theorem c2_malformed_aborts_run (target : String) (backup : Bool) (f : String)
    (rest resps : List String) (st : PState) (content : String)
    (hf : st.fs f = some content) :
    (containsSubstr finalMarker (resps.headD "") = false →
        processFiles target backup (f :: rest) resps st
          = (st, Except.error ("Response shape not valid: " ++ resps.headD "")))
      ∧ (∀ payload : String, llmProcessParse (resps.headD "") = Except.ok payload →
          jsonParse (if (splitDart (cleanResponse payload)).1 = ""
              then String.mk [lbrace] ++ String.mk [rbrace]
              else (splitDart (cleanResponse payload)).1) = none →
          processFiles target backup (f :: rest) resps st
            = (st, Except.error
                ("SyntaxError: JSON.parse: " ++ (splitDart (cleanResponse payload)).1))) := by
  constructor
  · intro h
    unfold processFiles
    rw [hf, llmProcessParse_of_not_contains _ h]
  · intro payload hok hparse
    unfold processFiles
    simp only [hf, hok, hparse]

/-- Witness for C2 at a concrete state: one pending file with a
marker-free response aborts with the state unchanged. -/
theorem c2_malformed_aborts_run_witness :
    processFiles "l10n/app_en.arb" false ["f1.dart"] ["bad"]
        ⟨fun p => if p = "f1.dart" then some "Text(hi)" else none, [], 0⟩
      = (⟨fun p => if p = "f1.dart" then some "Text(hi)" else none, [], 0⟩,
         Except.error ("Response shape not valid: " ++ (["bad"] : List String).headD "")) :=
  (c2_malformed_aborts_run "l10n/app_en.arb" false "f1.dart" [] ["bad"]
    ⟨fun p => if p = "f1.dart" then some "Text(hi)" else none, [], 0⟩
    "Text(hi)" rfl).1 (by decide)

/-- C5 counterexample.  One source file processed successfully, then
translation: the first target language's response lacks the delimiter,
the run rejects (no try/catch in the translation loop), and the second
target language's bundle is never translated or written — it still
holds its original content. -/
theorem c5_counterexample :
    (processRun ⟨"l10n", ["f1.dart"], "pkg", false⟩
        ⟨"REPONSE FINALE : en",
         ["REPONSE FINALE : \x7b\"farewell\": \"bye\"\x7d"],
         ["no marker here", "REPONSE FINALE : \x7b\"farewell\": \"adios\"\x7d"]⟩
        ⟨fun p => if p = "f1.dart" then some "Text(hi)"
            else if p = "l10n/app_en.arb" then some "\x7b\"greeting\": \"hi\"\x7d"
            else if p = "l10n/app_fr.arb" then some "\x7b\x7d"
            else if p = "l10n/app_es.arb" then some "\x7b\x7d" else none,
         fun d => if d = "l10n" then some ["app_en.arb", "app_fr.arb", "app_es.arb"]
            else none⟩).2
      = Except.error "LLM response not valid: no marker here"
    ∧ (processRun ⟨"l10n", ["f1.dart"], "pkg", false⟩
        ⟨"REPONSE FINALE : en",
         ["REPONSE FINALE : \x7b\"farewell\": \"bye\"\x7d"],
         ["no marker here", "REPONSE FINALE : \x7b\"farewell\": \"adios\"\x7d"]⟩
        ⟨fun p => if p = "f1.dart" then some "Text(hi)"
            else if p = "l10n/app_en.arb" then some "\x7b\"greeting\": \"hi\"\x7d"
            else if p = "l10n/app_fr.arb" then some "\x7b\x7d"
            else if p = "l10n/app_es.arb" then some "\x7b\x7d" else none,
         fun d => if d = "l10n" then some ["app_en.arb", "app_fr.arb", "app_es.arb"]
            else none⟩).1 "l10n/app_es.arb"
      = some "\x7b\x7d" := by
  constructor
  · rfl
  · rfl

/-- C5 amended.  In the translation loop, a failing translation for the
first pending target language ends the whole run: `translateOthers`
returns the invalid-response error with the file system unchanged from
that point, so the remaining target languages are neither translated
nor written. -/
theorem c5_translation_failure_aborts (backup : Bool) (json arbFile : String)
    (rest resps : List String) (fs : Fs) (clock : Nat)
    (h : containsSubstr finalMarker (resps.headD "") = false) :
    translateOthers backup json (arbFile :: rest) resps fs clock
      = ((fs, clock), Except.error ("LLM response not valid: " ++ resps.headD "")) := by
  unfold translateOthers
  rw [amendArbParse_of_not_contains _ h]

/-- Witness for C5 at a concrete state. -/
theorem c5_translation_failure_aborts_witness :
    translateOthers false "\x7b\x7d" ["l10n/app_fr.arb", "l10n/app_es.arb"] ["bad"]
        (fun _ => none) 3
      = (((fun _ => none : Fs), 3),
         Except.error ("LLM response not valid: " ++ (["bad"] : List String).headD "")) :=
  c5_translation_failure_aborts false "\x7b\x7d" "l10n/app_fr.arb" ["l10n/app_es.arb"]
    ["bad"] (fun _ => none) 3 (by decide)
